import Mathlib

/-!
# Verification of `phangsPipeline/productHandler.py`

A shallow embedding of the `ProductHandler` masking-and-product stage of the
PHANGS imaging pipeline, together with theorems settling the specification
claims about it.

Modelling conventions:
* The filesystem is an explicit value threaded through the functions:
  an association list from paths to file contents plus a list of directories.
* Python `None`-able arguments are `Option` values; Python exceptions are the
  `Except PyErr` monad (`Exception`, `KeyError`, `TypeError`, `NameError`).
* Cube data is a flattened list of integer voxel values; angular resolutions
  are rationals; floats in path/tag strings are opaque tag strings supplied by
  the external `KeyHandler` collaborator, as in the source.
* `os.path.abspath` is modelled as the identity (paths are opaque strings) and
  `os.path.basename` of the bare filename returned by
  `KeyHandler.get_cube_filename` is the filename itself.
* The numerical resolution value interpolated into the missing-cube warning
  message by `np.round(this_res, 2)` is elided from the modelled message text;
  the warning is keyed by the resolution tag and the cube path, as in source.
-/

namespace ProductHandler

abbrev Path := String
abbrev Tag := String

/-- Python exception values raised by the embedded code. -/
inductive PyErr where
  | exception (msg : String)
  | keyError (key : String)
  | typeError (msg : String)
  | nameError (name : String)
deriving DecidableEq, Repr

/-- Decidable equality of `Except` results, for evaluating the embedding at
concrete inputs. -/
instance {α β : Type} [DecidableEq α] [DecidableEq β] :
    DecidableEq (Except α β) := fun a b =>
  match a, b with
  | .ok x, .ok y =>
      match decEq x y with
      | isTrue h => isTrue (h ▸ rfl)
      | isFalse h => isFalse (fun hc => h (Except.ok.inj hc))
  | .error e, .error f =>
      match decEq e f with
      | isTrue h => isTrue (h ▸ rfl)
      | isFalse h => isFalse (fun hc => h (Except.error.inj hc))
  | .ok _, .error _ => isFalse (fun hc => Except.noConfusion hc)
  | .error _, .ok _ => isFalse (fun hc => Except.noConfusion hc)

/-- Association-list lookup (Python `dict` access by key). -/
def alookup {α : Type} (l : List (String × α)) (k : String) : Option α :=
  (l.find? (fun p => p.1 == k)).map Prod.snd

/-- Association-list insert (Python `d[k] = v`): replaces the (unique)
existing binding in place, otherwise appends, matching `dict`
insertion-order semantics. -/
def ainsert {α : Type} : List (String × α) → String → α → List (String × α)
  | [], k, v => [(k, v)]
  | p :: rest, k, v =>
      if p.1 == k then (k, v) :: rest else p :: ainsert rest k v

/-- Association-list removal of a key (Python `os.remove` on the file map). -/
def aremove {α : Type} (l : List (String × α)) (k : String) :
    List (String × α) :=
  l.filter (fun p => !(p.1 == k))

/-- Flattened voxel data of a 3-D cube (`numpy` array read from FITS). -/
abbrev CubeData := List Int

/-- A boolean 3-D mask, flattened the same way as its cube. -/
abbrev Mask := List Bool

/-- FITS header: keyword cards plus accumulated COMMENT cards
(assigning to `COMMENT` on an `astropy` header appends a card). -/
structure Header where
  kv : List (String × String)
  comments : List String
deriving DecidableEq, Repr

/-- `astropy.wcs.WCS`: the world-coordinate part of a header. -/
structure Wcs where
  header : Header
deriving DecidableEq, Repr

/-- `WCS(cube_header)`: keeps coordinate keywords; the beam-shape keywords
BMAJ/BMIN/BPA are not part of the WCS (the source copies them separately). -/
def wcsOfHeader (h : Header) : Wcs :=
  ⟨⟨h.kv.filter (fun p => !(["BMAJ", "BMIN", "BPA"].contains p.1)), []⟩⟩

/-- `wcs.to_header()`. -/
def Wcs.to_header (w : Wcs) : Header := w.header

/-- `header[k] = v` for an ordinary keyword card. -/
def Header.setKey (h : Header) (k v : String) : Header :=
  { h with kv := ainsert h.kv k v }

/-- A `spectral_cube.SpectralCube` built from data plus a boolean array mask
(the WCS is carried alongside by the caller). -/
structure MaskedCube where
  data : CubeData
  mask : Mask
deriving DecidableEq, Repr

/-- The seven product kinds of `task_writting_products`. -/
inductive ProductKind where
  | mom0 | mom1 | mom2 | ew | tmax | vmax | vquad
deriving DecidableEq, Repr

/-- Contents of a file on the modelled filesystem. -/
inductive FileData where
  | cube (d : CubeData) (hdr : Header)
  | maskFile (m : List Int) (hdr : Header)
  | productFile (kind : ProductKind) (cube : MaskedCube) (rms : MaskedCube)
  | productErrFile (kind : ProductKind) (cube : MaskedCube) (rms : MaskedCube)
deriving DecidableEq, Repr

/-- The filesystem: regular files with contents, and directories. -/
structure FS where
  entries : List (Path × FileData)
  dirs : List Path
deriving DecidableEq, Repr

/-- `os.path.isfile`. -/
def FS.isfile (fs : FS) (p : Path) : Bool := (alookup fs.entries p).isSome

/-- `os.path.isdir`. -/
def FS.isdir (fs : FS) (p : Path) : Bool := fs.dirs.contains p

/-- `os.remove`. -/
def FS.removeFile (fs : FS) (p : Path) : FS :=
  { fs with entries := aremove fs.entries p }

/-- Writing a file (FITS write): replaces any binding at that path. -/
def FS.writeFile (fs : FS) (p : Path) (d : FileData) : FS :=
  { fs with entries := ainsert fs.entries p d }

/-- `os.makedirs`. -/
def FS.addDir (fs : FS) (p : Path) : FS :=
  { fs with dirs := fs.dirs ++ [p] }

/-- `astropy.io.fits.getdata`: the data array of a FITS cube file. -/
def FS.getdata (fs : FS) (p : Path) : Except PyErr CubeData :=
  match alookup fs.entries p with
  | some (.cube d _) => .ok d
  | _ => .error (.exception ("failed to read FITS data from " ++ p))

/-- `astropy.io.fits.open`: data and header of a FITS cube file. -/
def FS.openCube (fs : FS) (p : Path) : Except PyErr (CubeData × Header) :=
  match alookup fs.entries p with
  | some (.cube d h) => .ok (d, h)
  | _ => .error (.exception ("failed to open FITS file " ++ p))

/-- `os.path.join`. -/
def pathJoin (a b : String) : String := a ++ "/" ++ b

/-- `re.sub(suffix ++ "$", "", s)` for a literal suffix: strip it when the
string ends with it, otherwise leave the string unchanged (implemented on
character lists so that the kernel can evaluate it). -/
def stripSuffix (s suf : String) : String :=
  if suf.data.isSuffixOf s.data then
    ⟨s.data.take (s.data.length - suf.data.length)⟩
  else s

/-- Modelled from the spec: `scMaskingRoutines.noise_cube` is not under
`src/`; the NoiseEstimator "estimates a per-voxel local noise level from a raw
cube" deterministically.  Modelled as a uniform per-voxel scale derived from
the mean absolute voxel value (at least 1), same shape as the input. -/
def noise_cube (data : CubeData) : CubeData :=
  let scale : Nat := (data.map Int.natAbs).sum / max data.length 1
  data.map (fun _ => (Int.ofNat (max scale 1)))

/-- Modelled from the spec: `scMaskingRoutines.simple_mask` is not under
`src/`; the MaskBuilder "thresholds a cube against its noise estimate to
produce a binary signal mask" (the spec's scenario uses a 5-sigma cut). -/
def simple_mask (data noise : CubeData) : Mask :=
  List.zipWith (fun d n => decide (d > 5 * n)) data noise

/-- `np.logical_or` of two same-shaped boolean masks, pointwise. -/
def logical_or (a b : Mask) : Mask := List.zipWith or a b

/-- Copy the beam-shape keywords BMAJ/BMIN/BPA from the cube header into the
output header when present (`for key in ... if key in header`). -/
def copyBeamKeys (src dst : Header) : Header :=
  ["BMAJ", "BMIN", "BPA"].foldl
    (fun acc k =>
      match alookup src.kv k with
      | some v => acc.setKey k v
      | none => acc)
    dst

/-- Python `str.strip()`: drop surrounding whitespace (implemented on
character lists so that the kernel can evaluate it). -/
def pyStrip (s : String) : String :=
  ⟨((s.data.dropWhile Char.isWhitespace).reverse.dropWhile Char.isWhitespace).reverse⟩

/-- Append the provenance comments, each stripped of surrounding whitespace
and bracketed by a leading and a trailing blank COMMENT card. -/
def addComments (h : Header) (cs : List String) : Header :=
  let h1 := { h with comments := h.comments ++ [""] }
  let h2 := cs.foldl (fun acc c => { acc with comments := acc.comments ++ [pyStrip c] }) h1
  { h2 with comments := h2.comments ++ [""] }

/-- The header written by `task_writing_mask`: `wcs.to_header()`, then the
beam keywords copied from the cube header, then the comment block. -/
def builtMaskHeader (wcs : Wcs) (header : Option Header)
    (comments : Option (List String)) : Header :=
  let h0 := wcs.to_header
  let h1 := match header with
    | some hd => copyBeamKeys hd h0
    | none => h0
  match comments with
  | some cs => addComments h1 cs
  | none => h1

/-- `ProductHandler.task_writing_mask`: no-op when `mask`, `wcs` or `outfile`
is `None`; otherwise deletes any pre-existing file at `outfile` and writes the
mask, cast voxel-wise to integers, under the built header. -/
def task_writing_mask (fs : FS) (mask : Option Mask) (wcs : Option Wcs)
    (header : Option Header) (comments : Option (List String))
    (outfile : Option Path) : FS :=
  match mask, wcs, outfile with
  | some m, some w, some o =>
      let fs1 := if fs.isfile o then fs.removeFile o else fs
      fs1.writeFile o
        (.maskFile (m.map (fun b => if b then (1 : Int) else 0))
          (builtMaskHeader w header comments))
  | _, _, _ => fs

/-- One entry of the `process_list` of `task_writting_products`. -/
structure ProcessEntry where
  outfile : Path
  errorfile : Path
  kind : ProductKind
deriving DecidableEq, Repr

/-- The `process_list` built from the per-kind toggles, in source order. -/
def buildProcessList (name : String) (do_moment0 do_moment1 do_moment2 do_ew
    do_tmax do_vmax do_vquad : Bool) : List ProcessEntry :=
  (if do_moment0 then
    [⟨name ++ "_mom0.fits", name ++ "_emom0.fits", .mom0⟩] else []) ++
  (if do_moment1 then
    [⟨name ++ "_mom1.fits", name ++ "_emom1.fits", .mom1⟩] else []) ++
  (if do_moment2 then
    [⟨name ++ "_mom2.fits", name ++ "_emom2.fits", .mom2⟩] else []) ++
  (if do_ew then
    [⟨name ++ "_ew.fits", name ++ "_eew.fits", .ew⟩] else []) ++
  (if do_tmax then
    [⟨name ++ "_tmax.fits", name ++ "_etmax.fits", .tmax⟩] else []) ++
  (if do_vmax then
    [⟨name ++ "_vmax.fits", name ++ "_evmax.fits", .vmax⟩] else []) ++
  (if do_vquad then
    [⟨name ++ "_vquad.fits", name ++ "_evquad.fits", .vquad⟩] else [])

/-- The delete-old-files loop of `task_writting_products`.  For each entry the
output file is removed when present; then `errorfile` is
`process_dict['errorfile'] if do_errormaps else None`, and the source calls
`os.path.isfile(errorfile)` unconditionally, which raises `TypeError` on
`None`. -/
def deleteOldFiles (l : List ProcessEntry) (do_errormaps : Bool) (fs : FS) :
    Except PyErr FS :=
  match l with
  | [] => .ok fs
  | p :: rest =>
    let fs1 := if fs.isfile p.outfile then fs.removeFile p.outfile else fs
    let errorfile : Option Path :=
      if do_errormaps then some p.errorfile else none
    match errorfile with
    | none =>
        .error (.typeError "os.path.isfile received NoneType")
    | some ef =>
        let fs2 := if fs1.isfile ef then fs1.removeFile ef else fs1
        deleteOldFiles rest do_errormaps fs2

/-- Modelled from the spec: the `scProductRoutines.write_*` functions are not
under `src/`; each "computes a fixed battery of moment/summary maps and paired
formal-error maps" from the masked cube and masked noise cube and writes the
map to `outfile` and, when `errorfile` is given, the error map to
`errorfile`.  The written contents are recorded as the (deterministic)
function of the kind and the two inputs. -/
def write_product (kind : ProductKind) (cube rms : MaskedCube)
    (outfile : Path) (errorfile : Option Path) (fs : FS) : FS :=
  let fs1 := fs.writeFile outfile (.productFile kind cube rms)
  match errorfile with
  | some ef => fs1.writeFile ef (.productErrFile kind cube rms)
  | none => fs1

/-- The production loop of `task_writting_products`. -/
def runProducts (cube rms : MaskedCube) (l : List ProcessEntry)
    (do_errormaps : Bool) (fs : FS) : FS :=
  l.foldl
    (fun fs p =>
      write_product p.kind cube rms p.outfile
        (if do_errormaps then some p.errorfile else none) fs)
    fs

/-- `ProductHandler.task_writting_products`: strip the `.fits` suffix, build
the process list from the toggles, delete stale outputs, then produce each
enabled product (and error map when enabled). -/
def task_writting_products (fs : FS) (cube rms : MaskedCube)
    (commonoutfitsfile : Path) (do_moment0 do_moment1 do_moment2 do_ew
    do_tmax do_vmax do_vquad do_errormaps : Bool) : Except PyErr FS := do
  let commonoutfitsname := stripSuffix commonoutfitsfile ".fits"
  let process_list := buildProcessList commonoutfitsname do_moment0 do_moment1
    do_moment2 do_ew do_tmax do_vmax do_vquad
  let fs1 ← deleteOldFiles process_list do_errormaps fs
  .ok (runProducts cube rms process_list do_errormaps fs1)

/-- The external `KeyHandler` collaborator (ResolutionCatalog): directory
lookup, resolution list and tags per config, and the cube filename
convention.  `get_cube_filename` returns a bare filename (no directory). -/
structure KeyHandler where
  postprocess_dir : String → String
  product_dir : String → String
  res_for_config : String → Option (List ℚ)
  tag_for_res : ℚ → Tag
  cube_filename : String → String → String → String → String

/-- The full path of the pb-corrected trimmed cube for one resolution tag:
`os.path.join(indir, get_cube_filename(..., ext='pbcorr_trimmed_k_res'+tag))`. -/
def cubeFullPath (kh : KeyHandler) (target config product : String)
    (res_tag : Tag) : Path :=
  pathJoin (kh.postprocess_dir target)
    (kh.cube_filename target config product ("pbcorr_trimmed_k" ++ "_res" ++ res_tag))

/-- The missing-cube warning recorded by `_fname_dict` (resolution value
elided, see the module header). -/
def missingCubeWarning (res_tag : Tag) (path : Path) : String :=
  "Cube with tag " ++ res_tag ++ " arcsec resolution was not found: " ++ path

/-- Per-resolution filename entry of the table built by `_fname_dict`. -/
structure ResEntry where
  pbcorr_trimmed_k : Path
  hybridmask : Path
  signalmask : Path
  broad : Path
  strict : Path
deriving DecidableEq, Repr

/-- The table built by `_fname_dict`: per-tag entries in insertion order plus
the reserved `res_lowresmask` key (kept as a separate field; in the Python
dict it is a reserved string key disjoint from the resolution tags). -/
structure FnameDict where
  entries : List (Tag × ResEntry)
  res_lowresmask : Tag
deriving DecidableEq, Repr

/-- Accumulator of the resolution loop in `_fname_dict`. -/
structure FDState where
  entries : List (Tag × ResEntry)
  lowest_res : Option ℚ
  lowest_res_tag : Tag
  warnings : List String
deriving Repr

/-- One iteration of the resolution loop of `_fname_dict`: when the cube file
exists, record the filename entry and update the coarsest-resolution tracker
(strictly-greater test, so the first of equal resolutions wins); otherwise
record a warning and add no entry. -/
def fdStep (kh : KeyHandler) (fs : FS) (target config product : String)
    (outdir : Path) (st : FDState) (this_res : ℚ) : FDState :=
  let res_tag := kh.tag_for_res this_res
  let cube_filename :=
    kh.cube_filename target config product ("pbcorr_trimmed_k" ++ "_res" ++ res_tag)
  let full := pathJoin (kh.postprocess_dir target) cube_filename
  if fs.isfile full then
    let lowpair : Option ℚ × Tag :=
      match st.lowest_res with
      | none => (some this_res, res_tag)
      | some l =>
          if this_res > l then (some this_res, res_tag)
          else (st.lowest_res, st.lowest_res_tag)
    let image_basename :=
      stripSuffix cube_filename ("_pbcorr_trimmed_k_res" ++ res_tag ++ ".fits")
    let mkOut := fun (word : String) =>
      pathJoin outdir (image_basename ++ "_" ++ word ++ "_res" ++ res_tag ++ ".fits")
    { entries := ainsert st.entries res_tag
        { pbcorr_trimmed_k := full
          hybridmask := mkOut "hybridmask"
          signalmask := mkOut "signalmask"
          broad := mkOut "broad"
          strict := mkOut "strict" }
      lowest_res := lowpair.1
      lowest_res_tag := lowpair.2
      warnings := st.warnings }
  else
    { st with warnings := st.warnings ++ [missingCubeWarning res_tag full] }

/-- `ProductHandler._fname_dict` (called by the recipes after their own
`None` checks, so `target`/`config`/`product` are plain strings here): makes
the output directory when missing, fails when the config has no resolution
list, then builds the per-resolution table, collecting warnings for absent
cubes, and selects the low-resolution reference tag (the caller-supplied tag
when it names a present entry, the coarsest present tag otherwise). -/
def fname_dict (kh : KeyHandler) (fs : FS) (target config product : String)
    (res_lowresmask : String) : Except PyErr (FS × FnameDict × List String) :=
  let outdir := kh.product_dir target
  let fs1 := if fs.isdir outdir then fs else fs.addDir outdir
  match kh.res_for_config config with
  | none =>
      .error (.exception
        ("No target resolutions found for target " ++ target ++ " and config" ++ config))
  | some res_list =>
    let st := res_list.foldl (fdStep kh fs1 target config product outdir)
      ⟨[], none, "", []⟩
    let lowres :=
      if res_lowresmask ≠ "" ∧ (alookup st.entries res_lowresmask).isSome
      then res_lowresmask else st.lowest_res_tag
    .ok (fs1, ⟨st.entries, lowres⟩, st.warnings)

/-- `ProductHandler.recipe_building_low_resolution_mask` with an explicit
`res_lowresmask` argument: validates the arguments, resolves the filename
table, reads the cube at the selected low-resolution tag (a failed dict
lookup is a `KeyError`), estimates its noise and thresholds it to the
low-resolution signal mask. -/
def recipe_building_low_resolution_mask (kh : KeyHandler) (fs : FS)
    (target product config : Option String) (res_lowresmask : String) :
    Except PyErr (FS × Mask × Tag) :=
  match target with
  | none => .error (.exception "Please input a target.")
  | some target =>
    match product with
    | none => .error (.exception "Please input a product.")
    | some product =>
      match config with
      | none => .error (.exception "Please input a config.")
      | some config => do
        let (fs1, fd, _) ← fname_dict kh fs target config product res_lowresmask
        let lowres_cube_tag := fd.res_lowresmask
        match alookup fd.entries lowres_cube_tag with
        | none => .error (.keyError lowres_cube_tag)
        | some entry => do
          let lowres_cube_data ← fs1.getdata entry.pbcorr_trimmed_k
          let lowres_cube_noise := noise_cube lowres_cube_data
          let lowres_cube_mask := simple_mask lowres_cube_data lowres_cube_noise
          .ok (fs1, lowres_cube_mask, lowres_cube_tag)

/-- `recipe_building_low_resolution_mask` invoked without a `res_lowresmask`
argument: the Python default is the tag `'10p72'`. -/
def recipe_building_low_resolution_mask_default (kh : KeyHandler) (fs : FS)
    (target product config : Option String) : Except PyErr (FS × Mask × Tag) :=
  recipe_building_low_resolution_mask kh fs target product config "10p72"

/-- The per-resolution loop body of `recipe_building_all_resolution_masks`
for a resolution whose tag has a table entry: open the cube, build the signal
mask, OR it with the low-resolution mask into the hybrid mask, write both
masks, then write the broad (hybrid-masked) and strict (signal-masked)
product batteries with all toggles at their defaults (all `True`). -/
def processRes (entry : ResEntry) (res_tag : Tag) (lowres_cube_mask : Mask)
    (lowres_cube_tag : Tag) (fs : FS) : Except PyErr FS := do
  let opened ← fs.openCube entry.pbcorr_trimmed_k
  let cube_data := opened.1
  let cube_header := opened.2
  let cube_wcs := wcsOfHeader cube_header
  let cube_noise := noise_cube cube_data
  let cube_signal_mask := simple_mask cube_data cube_noise
  let cube_hybrid_mask := logical_or cube_signal_mask lowres_cube_mask
  let fs := task_writing_mask fs (some cube_hybrid_mask) (some cube_wcs)
    (some cube_header)
    (some ["This hybridmask is made from the OR combination of the signalmask and lowresmask.",
           "This signalmask is made with the " ++ res_tag ++ "arcsec resolution cube.",
           "This lowresmask is made with the " ++ lowres_cube_tag ++ "arcsec resolution cube."])
    (some entry.hybridmask)
  let fs := task_writing_mask fs (some cube_signal_mask) (some cube_wcs)
    (some cube_header)
    (some ["This signalmask is made with the " ++ res_tag ++ "arcsec resolution cube."])
    (some entry.signalmask)
  let broadcube_data : MaskedCube := ⟨cube_data, cube_hybrid_mask⟩
  let broadcube_noise : MaskedCube := ⟨cube_noise, cube_hybrid_mask⟩
  let strictcube_data : MaskedCube := ⟨cube_data, cube_signal_mask⟩
  let strictcube_noise : MaskedCube := ⟨cube_noise, cube_signal_mask⟩
  let fs ← task_writting_products fs broadcube_data broadcube_noise
    entry.broad true true true true true true true true
  let fs ← task_writting_products fs strictcube_data strictcube_noise
    entry.strict true true true true true true true true
  .ok fs

/-- `ProductHandler.recipe_building_all_resolution_masks`: validates the
arguments; when the low-resolution mask or tag is missing the Python source
falls into a branch referencing the undefined local names
`this_target`/`this_product`/`this_config` (lines 269-271), raising
`NameError`; otherwise it resolves a fresh table (no low-res override) and
processes every resolution whose tag has a table entry, silently skipping the
rest. -/
def recipe_building_all_resolution_masks (kh : KeyHandler) (fs : FS)
    (target product config : Option String) (lowres_cube_mask : Option Mask)
    (lowres_cube_tag : Option Tag) : Except PyErr FS :=
  match target with
  | none => .error (.exception "Please input a target.")
  | some target =>
    match product with
    | none => .error (.exception "Please input a product.")
    | some product =>
      match config with
      | none => .error (.exception "Please input a config.")
      | some config =>
        match lowres_cube_mask, lowres_cube_tag with
        | some lowres_cube_mask, some lowres_cube_tag => do
          let (fs1, fd, _) ← fname_dict kh fs target config product ""
          match kh.res_for_config config with
          | none =>
              .error (.typeError "NoneType object is not iterable")
          | some res_list =>
            res_list.foldlM
              (fun fs this_res =>
                let res_tag := kh.tag_for_res this_res
                match alookup fd.entries res_tag with
                | some entry =>
                    processRes entry res_tag lowres_cube_mask lowres_cube_tag fs
                | none => .ok fs)
              fs1
        | _, _ =>
          .error (.nameError "this_target")

/-! ## Specification-side helper definitions

These restate, independently of the fold inside `_fname_dict`, which
resolutions are present on disk and which present resolution is the
coarsest; the theorems below relate them to the code. -/

/-- Whether the cube file for resolution `r` is present on disk. -/
def cubePresent (kh : KeyHandler) (fs : FS) (target config product : String)
    (r : ℚ) : Bool :=
  fs.isfile (cubeFullPath kh target config product (kh.tag_for_res r))

/-- The tags of the resolutions of the config whose cubes are present on
disk, in catalog order. -/
def presentTags (kh : KeyHandler) (fs : FS) (target config product : String) :
    List Tag :=
  match kh.res_for_config config with
  | none => []
  | some res_list =>
    (res_list.filter (cubePresent kh fs target config product)).map kh.tag_for_res

/-- The maximum of a list of resolutions, the first occurrence winning ties. -/
def maxFirst (l : List ℚ) : Option ℚ :=
  l.foldl
    (fun acc r =>
      match acc with
      | none => some r
      | some m => if r > m then some r else acc)
    none

/-- The tag of the coarsest (numerically largest) resolution whose cube is
present on disk; the empty string when none is present. -/
def coarsestPresentTag (kh : KeyHandler) (fs : FS)
    (target config product : String) : Tag :=
  match kh.res_for_config config with
  | none => ""
  | some res_list =>
    match maxFirst (res_list.filter (cubePresent kh fs target config product)) with
    | none => ""
    | some r => kh.tag_for_res r

/-- The output and error paths of a process list, in order. -/
def entryPaths (l : List ProcessEntry) : List Path :=
  l.foldr (fun p acc => p.outfile :: p.errorfile :: acc) []

/-- All file paths written or deleted by one product battery (the seven
output maps and their error maps). -/
def productPaths (name : String) : List Path :=
  entryPaths (buildProcessList name true true true true true true true)

/-- Project the resolution tag out of a low-resolution-recipe result. -/
def resTagOf (e : Except PyErr (FS × Mask × Tag)) : Option Tag :=
  match e with
  | .ok (_, _, t) => some t
  | .error _ => none

/-- Unwrap an `Except` result with a default (used to name concrete outputs
in witnesses). -/
def exGetD (e : Except PyErr FS) (d : FS) : FS :=
  match e with
  | .ok f => f
  | .error _ => d

/-! ## Concrete fixtures for witnesses and counterexamples -/

/-- A concrete catalog: config `X` has resolutions 5, 11 and 20 arcsec; the
middle resolution carries the tag `10p72` (tags are opaque strings supplied
by the catalog collaborator). -/
def khA : KeyHandler where
  postprocess_dir := fun _ => "in"
  product_dir := fun _ => "out"
  res_for_config := fun _ => some [5, 11, 20]
  tag_for_res := fun r =>
    if r = 5 then "5p00" else if r = 11 then "10p72"
    else if r = 20 then "20p00" else "unk"
  cube_filename := fun t c p ext => t ++ "_" ++ c ++ "_" ++ p ++ "_" ++ ext ++ ".fits"

/-- A small cube: one bright voxel above the 5-sigma cut, six empty ones. -/
def cubeA : CubeData := [6, 0, 0, 0, 0, 0, 0]

/-- A header carrying a beam keyword and a coordinate keyword. -/
def hdrA : Header := ⟨[("CRVAL1", "23.5"), ("BMAJ", "0.002")], []⟩

/-- A filesystem holding the cubes of all three resolutions of `khA`. -/
def fsA : FS where
  entries :=
    [("in/T_X_P_pbcorr_trimmed_k_res5p00.fits", .cube cubeA hdrA),
     ("in/T_X_P_pbcorr_trimmed_k_res10p72.fits", .cube cubeA hdrA),
     ("in/T_X_P_pbcorr_trimmed_k_res20p00.fits", .cube cubeA hdrA)]
  dirs := []

/-- A filesystem with no cube files at all. -/
def fsEmpty : FS := ⟨[], []⟩

/-- The table entry recorded by `fdStep` for a present resolution. -/
def fdEntry (kh : KeyHandler) (t c p : String) (outdir : Path) (r : ℚ) :
    ResEntry :=
  let res_tag := kh.tag_for_res r
  let cube_filename :=
    kh.cube_filename t c p ("pbcorr_trimmed_k" ++ "_res" ++ res_tag)
  let image_basename :=
    stripSuffix cube_filename ("_pbcorr_trimmed_k_res" ++ res_tag ++ ".fits")
  let mkOut := fun (word : String) =>
    pathJoin outdir (image_basename ++ "_" ++ word ++ "_res" ++ res_tag ++ ".fits")
  { pbcorr_trimmed_k := pathJoin (kh.postprocess_dir t) cube_filename
    hybridmask := mkOut "hybridmask"
    signalmask := mkOut "signalmask"
    broad := mkOut "broad"
    strict := mkOut "strict" }

/-- The coarsest-resolution tracker step, as a standalone function. -/
def maxStepT (kh : KeyHandler) (a : Option ℚ × Tag) (r : ℚ) : Option ℚ × Tag :=
  match a.1 with
  | none => (some r, kh.tag_for_res r)
  | some m => if r > m then (some r, kh.tag_for_res r) else a

/-- Invariant of the tracker: the tag is always the tag of the tracked
resolution (and empty when nothing is tracked yet). -/
def lowInv (kh : KeyHandler) (a : Option ℚ × Tag) : Prop :=
  (a.1 = none → a.2 = "") ∧ ∀ r, a.1 = some r → a.2 = kh.tag_for_res r

/-- A catalog with no resolution lists, for the C10 witness. -/
def khNone : KeyHandler := { khA with res_for_config := fun _ => none }

/-- A filesystem in which the cube tagged `10p72` is absent. -/
def fsB : FS :=
  ⟨[("in/T_X_P_pbcorr_trimmed_k_res5p00.fits", .cube cubeA hdrA),
    ("in/T_X_P_pbcorr_trimmed_k_res20p00.fits", .cube cubeA hdrA)], []⟩

/-- The concrete result of resolving filenames against `fsB`. -/
def fdResultB : FS × FnameDict × List String :=
  match fname_dict khA fsB "T" "X" "P" "" with
  | .ok x => x
  | .error _ => (fsEmpty, ⟨[], ""⟩, [])

/-- The table entry for the `10p72` cube of the concrete catalog. -/
def entryA : ResEntry :=
  ⟨"in/T_X_P_pbcorr_trimmed_k_res10p72.fits",
   "out/T_X_P_hybridmask_res10p72.fits",
   "out/T_X_P_signalmask_res10p72.fits",
   "out/T_X_P_broad_res10p72.fits",
   "out/T_X_P_strict_res10p72.fits"⟩

/-- A concrete low-resolution reference mask of the shape of `cubeA`. -/
def lowresA : Mask := [false, true, false, false, false, false, false]

/-- The state left by the concrete per-resolution loop body. -/
def fsOutA : FS := exGetD (processRes entryA "10p72" lowresA "20p00" fsA) fsEmpty


/-! ## Basic lemmas about the association-list and filesystem model -/

theorem alookup_nil {α : Type} (k : String) :
    alookup ([] : List (String × α)) k = none := rfl

theorem alookup_cons {α : Type} (p : String × α) (l : List (String × α))
    (k : String) :
    alookup (p :: l) k = if p.1 == k then some p.2 else alookup l k := by
  unfold alookup
  rw [List.find?]
  cases h : p.1 == k <;> simp [h]

theorem alookup_ainsert {α : Type} (l : List (String × α)) (k k' : String)
    (v : α) :
    alookup (ainsert l k v) k' = if k' = k then some v else alookup l k' := by
  induction l with
  | nil =>
      rw [show ainsert ([] : List (String × α)) k v = [(k, v)] from rfl,
        alookup_cons]
      by_cases h : k' = k
      · simp [h]
      · have hb : (k == k') = false := by
          rw [beq_eq_false_iff_ne]
          exact fun e => h e.symm
        rw [if_neg h]
        simp [hb]
  | cons p rest ih =>
      by_cases hpk : p.1 = k
      · rw [show ainsert (p :: rest) k v = (k, v) :: rest by
          simp [ainsert, hpk], alookup_cons]
        by_cases h : k' = k
        · simp [h]
        · have hb : (k == k') = false := by
            rw [beq_eq_false_iff_ne]
            exact fun e => h e.symm
          simp only [hb, if_neg h, Bool.false_eq_true, if_false]
          rw [alookup_cons]
          have hb2 : (p.1 == k') = false := by
            rw [beq_eq_false_iff_ne]
            rw [hpk]
            exact fun e => h e.symm
          simp [hb2]
      · rw [show ainsert (p :: rest) k v = p :: ainsert rest k v by
          simp [ainsert, hpk], alookup_cons, ih, alookup_cons]
        by_cases hpk' : p.1 = k'
        · have : k' ≠ k := fun e => hpk (by rw [hpk', e])
          simp [hpk', this]
        · have hb : (p.1 == k') = false := by
            rw [beq_eq_false_iff_ne]
            exact hpk'
          simp [hb]

theorem alookup_aremove {α : Type} (l : List (String × α)) (k k' : String) :
    alookup (aremove l k) k' = if k' = k then none else alookup l k' := by
  induction l with
  | nil => simp [aremove, alookup_nil]
  | cons p rest ih =>
      by_cases hpk : p.1 = k
      · rw [show aremove (p :: rest) k = aremove rest k by
          simp [aremove, List.filter_cons, hpk], ih]
        by_cases h : k' = k
        · simp [h]
        · have hb : (p.1 == k') = false := by
            rw [beq_eq_false_iff_ne, hpk]
            exact fun e => h e.symm
          rw [if_neg h, if_neg h, alookup_cons]
          simp [hb]
      · have hb : (p.1 == k) = false := by
          rw [beq_eq_false_iff_ne]
          exact hpk
        rw [show aremove (p :: rest) k = p :: aremove rest k by
          simp [aremove, List.filter_cons, hb], alookup_cons, ih, alookup_cons]
        by_cases h : k' = k
        · subst h
          simp [hb]
        · rw [if_neg h, if_neg h]

theorem FS.isfile_addDir (fs : FS) (d p : Path) :
    (fs.addDir d).isfile p = fs.isfile p := rfl

theorem FS.entries_addDir (fs : FS) (d : Path) :
    (fs.addDir d).entries = fs.entries := rfl

theorem FS.lookup_writeFile_self (fs : FS) (p : Path) (d : FileData) :
    alookup (fs.writeFile p d).entries p = some d := by
  simp [FS.writeFile, alookup_ainsert]

theorem FS.lookup_writeFile_ne (fs : FS) (p q : Path) (d : FileData)
    (h : q ≠ p) :
    alookup (fs.writeFile p d).entries q = alookup fs.entries q := by
  simp [FS.writeFile, alookup_ainsert, h]

theorem FS.lookup_removeFile_ne (fs : FS) (p q : Path) (h : q ≠ p) :
    alookup (fs.removeFile p).entries q = alookup fs.entries q := by
  simp [FS.removeFile, alookup_aremove, h]

/-- Pointwise semantics of `np.logical_or` on same-shaped masks: a voxel of
the OR is set exactly when it is set in either operand. -/
theorem logical_or_getElem? (a b : Mask) (h : a.length = b.length) (i : ℕ) :
    (logical_or a b)[i]? = some true ↔ (a[i]? = some true ∨ b[i]? = some true) := by
  induction a generalizing b i with
  | nil =>
      cases b with
      | nil => simp [logical_or]
      | cons y ys => simp at h
  | cons x xs ih =>
      cases b with
      | nil => simp at h
      | cons y ys =>
          cases i with
          | zero =>
              simp only [logical_or, List.zipWith_cons_cons, List.getElem?_cons_zero]
              constructor
              · intro hx
                have : (x || y) = true := by simpa using hx
                rcases Bool.or_eq_true_iff.mp this with h1 | h1
                · exact Or.inl (by simp [h1])
                · exact Or.inr (by simp [h1])
              · rintro (hx | hx)
                · have : x = true := by simpa using hx
                  simp [this]
                · have : y = true := by simpa using hx
                  simp [this]
          | succ j =>
              simp only [logical_or, List.zipWith_cons_cons, List.getElem?_cons_succ]
              exact ih ys (by simpa using h) j

/-! ## Lemmas about the writers -/

theorem task_writing_mask_some_lookup_self (fs : FS) (m : Mask) (w : Wcs)
    (header : Option Header) (comments : Option (List String)) (o : Path) :
    alookup (task_writing_mask fs (some m) (some w) header comments (some o)).entries o
      = some (.maskFile (m.map (fun b => if b then 1 else 0))
          (builtMaskHeader w header comments)) := by
  unfold task_writing_mask
  by_cases h : fs.isfile o = true
  · simp [h, FS.lookup_writeFile_self]
  · simp [h, FS.lookup_writeFile_self]

theorem task_writing_mask_some_lookup_ne (fs : FS) (m : Mask) (w : Wcs)
    (header : Option Header) (comments : Option (List String)) (o q : Path)
    (h : q ≠ o) :
    alookup (task_writing_mask fs (some m) (some w) header comments (some o)).entries q
      = alookup fs.entries q := by
  unfold task_writing_mask
  by_cases hf : fs.isfile o = true
  · simp only [hf, if_pos]
    rw [FS.lookup_writeFile_ne _ _ _ _ h, FS.lookup_removeFile_ne _ _ _ h]
  · simp only [hf]
    rw [if_neg (by simp [hf]), FS.lookup_writeFile_ne _ _ _ _ h]

/-- With error maps enabled the delete-old-files loop always succeeds, and
touches no path outside the process list's paths. -/
theorem deleteOldFiles_true_ok (l : List ProcessEntry) (fs : FS) :
    ∃ fs', deleteOldFiles l true fs = .ok fs' ∧
      ∀ q, q ∉ entryPaths l → alookup fs'.entries q = alookup fs.entries q := by
  induction l generalizing fs with
  | nil => exact ⟨fs, rfl, fun q _ => rfl⟩
  | cons p rest ih =>
      simp only [deleteOldFiles]
      set fs1 := if fs.isfile p.outfile then fs.removeFile p.outfile else fs with hfs1
      set fs2 := if fs1.isfile p.errorfile then fs1.removeFile p.errorfile else fs1 with hfs2
      obtain ⟨fs', hrun, hpres⟩ := ih fs2
      refine ⟨fs', hrun, ?_⟩
      intro q hq
      have hq1 : q ∉ entryPaths rest := by
        intro hmem
        exact hq (by simp [entryPaths, List.mem_cons]; right; right; simpa [entryPaths] using hmem)
      have hqo : q ≠ p.outfile := by
        intro e
        exact hq (by simp [entryPaths, e])
      have hqe : q ≠ p.errorfile := by
        intro e
        exact hq (by simp [entryPaths, e])
      rw [hpres q hq1]
      have h2 : alookup fs2.entries q = alookup fs1.entries q := by
        rw [hfs2]
        by_cases h : fs1.isfile p.errorfile = true
        · simp only [h, if_pos]
          exact FS.lookup_removeFile_ne _ _ _ hqe
        · simp [h]
      have h1 : alookup fs1.entries q = alookup fs.entries q := by
        rw [hfs1]
        by_cases h : fs.isfile p.outfile = true
        · simp only [h, if_pos]
          exact FS.lookup_removeFile_ne _ _ _ hqo
        · simp [h]
      rw [h2, h1]

/-- The production loop touches no path outside the process list's paths. -/
theorem runProducts_lookup_notin (cube rms : MaskedCube)
    (l : List ProcessEntry) (b : Bool) (fs : FS) (q : Path)
    (h : q ∉ entryPaths l) :
    alookup (runProducts cube rms l b fs).entries q = alookup fs.entries q := by
  induction l generalizing fs with
  | nil => rfl
  | cons p rest ih =>
      have hq1 : q ∉ entryPaths rest := by
        intro hmem
        exact h (by simp [entryPaths, List.mem_cons]; right; right; simpa [entryPaths] using hmem)
      have hqo : q ≠ p.outfile := by
        intro e
        exact h (by simp [entryPaths, e])
      have hqe : q ≠ p.errorfile := by
        intro e
        exact h (by simp [entryPaths, e])
      show alookup (runProducts cube rms rest b (write_product p.kind cube rms p.outfile _ fs)).entries q = _
      rw [ih _ hq1]
      unfold write_product
      cases b with
      | true =>
          simp only [if_pos]
          rw [FS.lookup_writeFile_ne _ _ _ _ hqe, FS.lookup_writeFile_ne _ _ _ _ hqo]
      | false =>
          simp only [Bool.false_eq_true, if_false]
          rw [FS.lookup_writeFile_ne _ _ _ _ hqo]

/-- A full default product battery (error maps enabled) succeeds and touches
no path outside its own product paths. -/
theorem task_writting_products_default_ok (fs : FS) (cube rms : MaskedCube)
    (f : Path) :
    ∃ fs', task_writting_products fs cube rms f true true true true true true true true = .ok fs' ∧
      ∀ q, q ∉ productPaths (stripSuffix f ".fits") →
        alookup fs'.entries q = alookup fs.entries q := by
  unfold task_writting_products
  obtain ⟨fsd, hrun, hpres⟩ :=
    deleteOldFiles_true_ok
      (buildProcessList (stripSuffix f ".fits") true true true true true true true) fs
  refine ⟨runProducts cube rms
      (buildProcessList (stripSuffix f ".fits") true true true true true true true) true fsd,
    ?_, ?_⟩
  · dsimp only
    rw [hrun]
    rfl
  · intro q hq
    rw [runProducts_lookup_notin _ _ _ _ _ _ hq, hpres q hq]

/-! ## Lemmas about the `_fname_dict` resolution loop -/





theorem fdStep_entries (kh : KeyHandler) (fs : FS) (t c p : String)
    (outdir : Path) (acc : FDState) (r : ℚ) :
    (fdStep kh fs t c p outdir acc r).entries =
      if cubePresent kh fs t c p r then
        ainsert acc.entries (kh.tag_for_res r) (fdEntry kh t c p outdir r)
      else acc.entries := by
  by_cases h : cubePresent kh fs t c p r = true
  · have hh : fs.isfile (pathJoin (kh.postprocess_dir t)
        (kh.cube_filename t c p ("pbcorr_trimmed_k" ++ "_res" ++ kh.tag_for_res r))) = true := h
    simp only [fdStep, fdEntry, hh, h, if_pos]
  · have h' : cubePresent kh fs t c p r = false := eq_false_of_ne_true h
    have hh : fs.isfile (pathJoin (kh.postprocess_dir t)
        (kh.cube_filename t c p ("pbcorr_trimmed_k" ++ "_res" ++ kh.tag_for_res r))) = false := h'
    simp only [fdStep, fdEntry, hh, h', Bool.false_eq_true, if_false]

theorem fdStep_lowpair (kh : KeyHandler) (fs : FS) (t c p : String)
    (outdir : Path) (acc : FDState) (r : ℚ) :
    ((fdStep kh fs t c p outdir acc r).lowest_res,
     (fdStep kh fs t c p outdir acc r).lowest_res_tag) =
      if cubePresent kh fs t c p r then
        maxStepT kh (acc.lowest_res, acc.lowest_res_tag) r
      else (acc.lowest_res, acc.lowest_res_tag) := by
  by_cases h : cubePresent kh fs t c p r = true
  · have hh : fs.isfile (pathJoin (kh.postprocess_dir t)
        (kh.cube_filename t c p ("pbcorr_trimmed_k" ++ "_res" ++ kh.tag_for_res r))) = true := h
    simp only [fdStep, maxStepT, hh, h, if_pos]
  · have h' : cubePresent kh fs t c p r = false := eq_false_of_ne_true h
    have hh : fs.isfile (pathJoin (kh.postprocess_dir t)
        (kh.cube_filename t c p ("pbcorr_trimmed_k" ++ "_res" ++ kh.tag_for_res r))) = false := h'
    simp only [fdStep, hh, h', Bool.false_eq_true, if_false]

theorem fdStep_warnings (kh : KeyHandler) (fs : FS) (t c p : String)
    (outdir : Path) (acc : FDState) (r : ℚ) :
    (fdStep kh fs t c p outdir acc r).warnings =
      if cubePresent kh fs t c p r then acc.warnings
      else acc.warnings ++
        [missingCubeWarning (kh.tag_for_res r)
          (cubeFullPath kh t c p (kh.tag_for_res r))] := by
  by_cases h : cubePresent kh fs t c p r = true
  · have hh : fs.isfile (pathJoin (kh.postprocess_dir t)
        (kh.cube_filename t c p ("pbcorr_trimmed_k" ++ "_res" ++ kh.tag_for_res r))) = true := h
    simp only [fdStep, hh, h, if_pos]
  · have h' : cubePresent kh fs t c p r = false := eq_false_of_ne_true h
    have hh : fs.isfile (pathJoin (kh.postprocess_dir t)
        (kh.cube_filename t c p ("pbcorr_trimmed_k" ++ "_res" ++ kh.tag_for_res r))) = false := h'
    simp only [fdStep, hh, h', Bool.false_eq_true, if_false]
    rfl

/-- A tag has a table entry after the resolution loop exactly when it already
had one or some processed resolution is present on disk and carries it. -/
theorem fd_fold_entries_isSome (kh : KeyHandler) (fs : FS) (t c p : String)
    (outdir : Path) (l : List ℚ) (acc : FDState) (τ : Tag) :
    (alookup ((l.foldl (fdStep kh fs t c p outdir) acc).entries) τ).isSome = true
      ↔ (alookup acc.entries τ).isSome = true
        ∨ ∃ r ∈ l, cubePresent kh fs t c p r = true ∧ kh.tag_for_res r = τ := by
  induction l generalizing acc with
  | nil => simp
  | cons r rest ih =>
      rw [List.foldl_cons, ih]
      have hstep : (alookup (fdStep kh fs t c p outdir acc r).entries τ).isSome = true
          ↔ (alookup acc.entries τ).isSome = true
            ∨ (cubePresent kh fs t c p r = true ∧ kh.tag_for_res r = τ) := by
        rw [fdStep_entries]
        by_cases h : cubePresent kh fs t c p r = true
        · rw [if_pos h, alookup_ainsert]
          by_cases hτ : τ = kh.tag_for_res r
          · simp [hτ, h]
          · simp only [hτ, if_neg, Bool.false_eq_true, if_false]
            constructor
            · exact Or.inl
            · rintro (hl | ⟨_, he⟩)
              · exact hl
              · exact absurd he.symm hτ
        · simp [h]
      rw [hstep]
      constructor
      · rintro (( hl | hr) | ⟨r', hr', hp, ht⟩)
        · exact Or.inl hl
        · exact Or.inr ⟨r, List.mem_cons_self r rest, hr⟩
        · exact Or.inr ⟨r', List.mem_cons_of_mem r hr', hp, ht⟩
      · rintro (hl | ⟨r', hr', hp, ht⟩)
        · exact Or.inl (Or.inl hl)
        · rcases List.mem_cons.mp hr' with he | hm
          · exact Or.inl (Or.inr ⟨he ▸ hp, he ▸ ht⟩)
          · exact Or.inr ⟨r', hm, hp, ht⟩

/-- The coarsest-resolution tracker of the loop equals the guarded
`maxStepT` fold. -/
theorem fd_fold_lowpair (kh : KeyHandler) (fs : FS) (t c p : String)
    (outdir : Path) (l : List ℚ) (acc : FDState) :
    ((l.foldl (fdStep kh fs t c p outdir) acc).lowest_res,
     (l.foldl (fdStep kh fs t c p outdir) acc).lowest_res_tag) =
      l.foldl
        (fun a r => if cubePresent kh fs t c p r then maxStepT kh a r else a)
        (acc.lowest_res, acc.lowest_res_tag) := by
  induction l generalizing acc with
  | nil => rfl
  | cons r rest ih =>
      rw [List.foldl_cons, List.foldl_cons, ih, fdStep_lowpair]

/-- A guarded fold is the fold over the filtered list. -/
theorem foldl_guard_filter {β : Type} (g : β → ℚ → β) (q : ℚ → Bool)
    (l : List ℚ) (a : β) :
    l.foldl (fun x r => if q r then g x r else x) a = (l.filter q).foldl g a := by
  induction l generalizing a with
  | nil => rfl
  | cons r rest ih =>
      rw [List.foldl_cons, List.filter_cons]
      by_cases h : q r = true
      · rw [if_pos h, if_pos h, List.foldl_cons, ih]
      · rw [if_neg h, if_neg h, ih]

/-- The first component of the `maxStepT` fold is `maxFirst`'s fold. -/
theorem maxStepT_foldl_fst (kh : KeyHandler) (m : List ℚ)
    (a : Option ℚ × Tag) :
    (m.foldl (maxStepT kh) a).1 =
      m.foldl
        (fun acc r =>
          match acc with
          | none => some r
          | some x => if r > x then some r else acc)
        a.1 := by
  induction m generalizing a with
  | nil => rfl
  | cons r rest ih =>
      rw [List.foldl_cons, List.foldl_cons, ih]
      congr 1
      cases ha : a.1 with
      | none => simp [maxStepT, ha]
      | some x =>
          by_cases hx : r > x
          · simp [maxStepT, ha, hx]
          · simp [maxStepT, ha, hx]



theorem maxStepT_foldl_inv (kh : KeyHandler) (m : List ℚ)
    (a : Option ℚ × Tag) (h : lowInv kh a) :
    lowInv kh (m.foldl (maxStepT kh) a) := by
  induction m generalizing a with
  | nil => exact h
  | cons r rest ih =>
      rw [List.foldl_cons]
      apply ih
      cases ha : a.1 with
      | none =>
          simp only [maxStepT, ha]
          exact ⟨fun hc => (nomatch hc), fun r' hr' => by cases hr'; rfl⟩
      | some x =>
          simp only [maxStepT, ha]
          by_cases hx : r > x
          · rw [if_pos hx]
            exact ⟨fun hc => (nomatch hc), fun r' hr' => by cases hr'; rfl⟩
          · rw [if_neg hx]
            exact h

/-- With every processed resolution absent, the loop adds no entries and
leaves the coarsest tracker untouched. -/
theorem fd_fold_absent (kh : KeyHandler) (fs : FS) (t c p : String)
    (outdir : Path) (l : List ℚ) (acc : FDState)
    (h : ∀ r ∈ l, cubePresent kh fs t c p r = false) :
    (l.foldl (fdStep kh fs t c p outdir) acc).entries = acc.entries
    ∧ (l.foldl (fdStep kh fs t c p outdir) acc).lowest_res_tag
        = acc.lowest_res_tag := by
  induction l generalizing acc with
  | nil => exact ⟨rfl, rfl⟩
  | cons r rest ih =>
      rw [List.foldl_cons]
      have habs : cubePresent kh fs t c p r = false :=
        h r (List.mem_cons_self r rest)
      obtain ⟨he, ht⟩ := ih (fdStep kh fs t c p outdir acc r)
        (fun r' hr' => h r' (List.mem_cons_of_mem r hr'))
      constructor
      · rw [he, fdStep_entries, habs]
        simp
      · rw [ht]
        have := fdStep_lowpair kh fs t c p outdir acc r
        rw [habs] at this
        simp only [Bool.false_eq_true, if_false] at this
        exact congrArg Prod.snd this

/-- Warnings already recorded survive the rest of the loop. -/
theorem fd_fold_warnings_mono (kh : KeyHandler) (fs : FS) (t c p : String)
    (outdir : Path) (l : List ℚ) (acc : FDState) (msg : String)
    (h : msg ∈ acc.warnings) :
    msg ∈ (l.foldl (fdStep kh fs t c p outdir) acc).warnings := by
  induction l generalizing acc with
  | nil => exact h
  | cons r rest ih =>
      rw [List.foldl_cons]
      apply ih
      rw [fdStep_warnings]
      by_cases hp : cubePresent kh fs t c p r = true
      · rw [if_pos hp]
        exact h
      · rw [if_neg hp]
        exact List.mem_append_left _ h

/-- An absent resolution of the processed list leaves its warning in the
final warning list. -/
theorem fd_fold_warnings_mem (kh : KeyHandler) (fs : FS) (t c p : String)
    (outdir : Path) (l : List ℚ) (acc : FDState) (r : ℚ) (hr : r ∈ l)
    (habs : cubePresent kh fs t c p r = false) :
    missingCubeWarning (kh.tag_for_res r) (cubeFullPath kh t c p (kh.tag_for_res r))
      ∈ (l.foldl (fdStep kh fs t c p outdir) acc).warnings := by
  induction l generalizing acc with
  | nil => cases hr
  | cons r' rest ih =>
      rw [List.foldl_cons]
      rcases List.mem_cons.mp hr with he | hm
      · subst he
        apply fd_fold_warnings_mono
        rw [fdStep_warnings, habs]
        simp
      · exact ih (fdStep kh fs t c p outdir acc r') hm

end ProductHandler

namespace ProductHandler

/-! ## Small reduction helpers -/

theorem exceptBindOk {α β : Type} (a : α) (f : α → Except PyErr β) :
    (Except.ok a >>= f) = f a := rfl

theorem exceptBindErr {α β : Type} (e : PyErr) (f : α → Except PyErr β) :
    ((Except.error e : Except PyErr α) >>= f) = .error e := rfl

/-- `_fname_dict` with a missing resolution catalog raises. -/
theorem fname_dict_none_catalog (kh : KeyHandler) (fs : FS) (t c p ρ : String)
    (h : kh.res_for_config c = none) :
    fname_dict kh fs t c p ρ = .error (.exception
      ("No target resolutions found for target " ++ t ++ " and config" ++ c)) := by
  unfold fname_dict
  rw [h]

/-! ## Claim theorems -/

/-- C10: for every call to the filename resolver with valid target, config
and product, a resolution catalog returning no resolution list at all is
fatal: `_fname_dict` logs an error and raises an exception instead of
returning a table, and the low-resolution recipe propagates it. -/
theorem missing_resolution_catalog_raises (kh : KeyHandler) (fs : FS)
    (t p c ρ : String) (h : kh.res_for_config c = none) :
    fname_dict kh fs t c p ρ = .error (.exception
      ("No target resolutions found for target " ++ t ++ " and config" ++ c))
    ∧ recipe_building_low_resolution_mask kh fs (some t) (some p) (some c) ρ
        = .error (.exception
          ("No target resolutions found for target " ++ t ++ " and config" ++ c)) := by
  refine ⟨fname_dict_none_catalog kh fs t c p ρ h, ?_⟩
  simp only [recipe_building_low_resolution_mask]
  rw [fname_dict_none_catalog kh fs t c p ρ h]
  rfl



/-- Witness for C10 at a concrete catalog with no resolution list. -/
theorem missing_resolution_catalog_raises_witness :
    fname_dict khNone fsEmpty "T" "X" "P" "" = .error (.exception
      ("No target resolutions found for target " ++ "T" ++ " and config" ++ "X"))
    ∧ recipe_building_low_resolution_mask khNone fsEmpty
        (some "T") (some "P") (some "X") "" = .error (.exception
          ("No target resolutions found for target " ++ "T" ++ " and config" ++ "X")) :=
  missing_resolution_catalog_raises khNone fsEmpty "T" "P" "X" "" rfl

/-- C6: for every call to the low-resolution recipe or the all-resolutions
recipe with target, product or config unset, the recipe raises a
configuration error (`Exception`) instead of proceeding. -/
theorem recipes_require_target_product_config (kh : KeyHandler) (fs : FS)
    (target product config : Option String) (ρ : String)
    (lrm : Option Mask) (lrt : Option Tag)
    (h : target = none ∨ product = none ∨ config = none) :
    (∃ msg, recipe_building_low_resolution_mask kh fs target product config ρ
        = .error (.exception msg))
    ∧ (∃ msg, recipe_building_all_resolution_masks kh fs target product config lrm lrt
        = .error (.exception msg)) := by
  cases target with
  | none => exact ⟨⟨_, rfl⟩, ⟨_, rfl⟩⟩
  | some t =>
      cases product with
      | none => exact ⟨⟨_, rfl⟩, ⟨_, rfl⟩⟩
      | some p =>
          cases config with
          | none => exact ⟨⟨_, rfl⟩, ⟨_, rfl⟩⟩
          | some c => simp at h

/-- Witness for C6 with a missing target. -/
theorem recipes_require_target_product_config_witness :
    (∃ msg, recipe_building_low_resolution_mask khA fsA none (some "P") (some "X") "10p72"
        = .error (.exception msg))
    ∧ (∃ msg, recipe_building_all_resolution_masks khA fsA none (some "P") (some "X") none none
        = .error (.exception msg)) :=
  recipes_require_target_product_config khA fsA none (some "P") (some "X") "10p72"
    none none (Or.inl rfl)

/-- C3 (code bug): for every call to the all-resolutions recipe with valid
target, product and config but `lowres_cube_mask` or `lowres_cube_tag` not
supplied, the source does not call the low-resolution recipe with
`target`/`product`/`config`; it references the undefined local names
`this_target`/`this_product`/`this_config` and raises `NameError`. -/
theorem allres_missing_lowres_raises_nameerror (kh : KeyHandler) (fs : FS)
    (t p c : String) (lrm : Option Mask) (lrt : Option Tag)
    (h : lrm = none ∨ lrt = none) :
    recipe_building_all_resolution_masks kh fs (some t) (some p) (some c) lrm lrt
      = .error (.nameError "this_target") := by
  rcases h with h | h
  · subst h
    cases lrt <;> rfl
  · subst h
    cases lrm <;> rfl

/-- Witness for C3 at a concrete failing input. -/
theorem allres_missing_lowres_raises_nameerror_witness :
    recipe_building_all_resolution_masks khA fsA (some "T") (some "P") (some "X") none none
      = .error (.nameError "this_target") :=
  allres_missing_lowres_raises_nameerror khA fsA "T" "P" "X" none none (Or.inl rfl)

/-- C4 (code bug): with error maps disabled and the product kinds at their
defaults, `task_writting_products` raises `TypeError` from
`os.path.isfile(None)` in its delete-old-files loop instead of skipping
error-file deletion, for every filesystem, cube and output basename. -/
theorem products_no_errormaps_raises_typeerror (fs : FS)
    (cube rms : MaskedCube) (f : Path) :
    task_writting_products fs cube rms f true true true true true true true false
      = .error (.typeError "os.path.isfile received NoneType") := rfl

/-- C8: the mask writer is a no-op when mask, wcs or outfile is unset, and
otherwise deletes any pre-existing file at `outfile` and writes the new
integer-cast mask there, leaving every other path untouched. -/
theorem task_writing_mask_noop_or_overwrite (fs : FS) (mask : Option Mask)
    (wcs : Option Wcs) (header : Option Header)
    (comments : Option (List String)) (outfile : Option Path) :
    ((mask = none ∨ wcs = none ∨ outfile = none) →
      task_writing_mask fs mask wcs header comments outfile = fs)
    ∧ (∀ m w o, mask = some m → wcs = some w → outfile = some o →
        alookup (task_writing_mask fs mask wcs header comments outfile).entries o
          = some (.maskFile (m.map (fun b => if b then 1 else 0))
              (builtMaskHeader w header comments))
        ∧ ∀ q, q ≠ o →
            alookup (task_writing_mask fs mask wcs header comments outfile).entries q
              = alookup fs.entries q) := by
  constructor
  · intro h
    rcases h with h | h | h
    · subst h
      cases wcs <;> cases outfile <;> rfl
    · subst h
      cases mask <;> cases outfile <;> rfl
    · subst h
      cases mask <;> cases wcs <;> rfl
  · intro m w o hm hw ho
    subst hm
    subst hw
    subst ho
    exact ⟨task_writing_mask_some_lookup_self fs m w header comments o,
      fun q hq => task_writing_mask_some_lookup_ne fs m w header comments o q hq⟩

/-- Witness for C8: the no-op branch and the overwrite branch at concrete
inputs. -/
theorem task_writing_mask_noop_or_overwrite_witness :
    task_writing_mask fsA none none none none none = fsA
    ∧ alookup (task_writing_mask fsA (some [true, false]) (some ⟨hdrA⟩)
        (some hdrA) (some [" c "]) (some "out/m.fits")).entries "out/m.fits"
        = some (.maskFile [1, 0] (builtMaskHeader ⟨hdrA⟩ (some hdrA) (some [" c "]))) := by
  constructor
  · exact (task_writing_mask_noop_or_overwrite fsA none none none none none).1
      (Or.inl rfl)
  · exact ((task_writing_mask_noop_or_overwrite fsA (some [true, false]) (some ⟨hdrA⟩)
      (some hdrA) (some [" c "]) (some "out/m.fits")).2
        [true, false] ⟨hdrA⟩ "out/m.fits" rfl rfl rfl).1

end ProductHandler

namespace ProductHandler

/-- C9: with a known resolution list but no cube file present on disk, the
table contains no cube entries and carries the empty string as its
low-resolution reference, and the low-resolution recipe then raises a
`KeyError` on the empty tag instead of returning a mask. -/
theorem zero_resolutions_empty_table_keyerror (kh : KeyHandler) (fs : FS)
    (t p c : String) (rl : List ℚ) (ρ : String)
    (hrl : kh.res_for_config c = some rl)
    (habs : ∀ r ∈ rl, cubePresent kh fs t c p r = false) :
    (∃ fs1 w, fname_dict kh fs t c p ρ = .ok (fs1, ⟨[], ""⟩, w))
    ∧ recipe_building_low_resolution_mask kh fs (some t) (some p) (some c) ρ
        = .error (.keyError "") := by
  have habs1 : ∀ r ∈ rl, cubePresent kh
      (if fs.isdir (kh.product_dir t) then fs else fs.addDir (kh.product_dir t))
      t c p r = false := by
    intro r hr
    by_cases hd : fs.isdir (kh.product_dir t) = true
    · rw [if_pos hd]
      exact habs r hr
    · rw [if_neg hd]
      exact habs r hr
  obtain ⟨he, ht⟩ := fd_fold_absent kh
    (if fs.isdir (kh.product_dir t) then fs else fs.addDir (kh.product_dir t))
    t c p (kh.product_dir t) rl ⟨[], none, "", []⟩ habs1
  have hfd : ∃ fs1 w, fname_dict kh fs t c p ρ = .ok (fs1, ⟨[], ""⟩, w) := by
    refine ⟨if fs.isdir (kh.product_dir t) then fs else fs.addDir (kh.product_dir t),
      (List.foldl (fdStep kh
          (if fs.isdir (kh.product_dir t) then fs else fs.addDir (kh.product_dir t))
          t c p (kh.product_dir t)) ⟨[], none, "", []⟩ rl).warnings, ?_⟩
    unfold fname_dict
    rw [hrl]
    dsimp only
    simp only [he, ht, alookup_nil, Option.isSome_none, Bool.false_eq_true,
      and_false, if_false]
  obtain ⟨fs1v, wv, hfd⟩ := hfd
  refine ⟨⟨fs1v, wv, hfd⟩, ?_⟩
  simp only [recipe_building_low_resolution_mask]
  rw [hfd]
  rfl

/-- Witness for C9 on the empty filesystem. -/
theorem zero_resolutions_empty_table_keyerror_witness :
    (∃ fs1 w, fname_dict khA fsEmpty "T" "X" "P" "10p72" = .ok (fs1, ⟨[], ""⟩, w))
    ∧ recipe_building_low_resolution_mask khA fsEmpty
        (some "T") (some "P") (some "X") "10p72" = .error (.keyError "") :=
  zero_resolutions_empty_table_keyerror khA fsEmpty "T" "P" "X"
    [5, 11, 20] "10p72" rfl (by decide)

end ProductHandler

namespace ProductHandler

/-- A successful `_fname_dict` call leaves the filesystem in a state (output
directory ensured) from which a second call returns the identical result. -/
theorem fname_dict_second_run (kh : KeyHandler) (fs : FS) (t c p ρ : String)
    (fs1 : FS) (fd : FnameDict) (w : List String)
    (h : fname_dict kh fs t c p ρ = .ok (fs1, fd, w)) :
    fname_dict kh fs1 t c p ρ = .ok (fs1, fd, w) := by
  cases hrl : kh.res_for_config c with
  | none =>
      rw [fname_dict_none_catalog kh fs t c p ρ hrl] at h
      exact absurd h (by simp)
  | some rl =>
      unfold fname_dict at h ⊢
      rw [hrl] at h ⊢
      dsimp only at h ⊢
      by_cases hd : fs.isdir (kh.product_dir t) = true
      · rw [if_pos hd] at h
        simp only [Except.ok.injEq, Prod.mk.injEq] at h
        obtain ⟨h1, h2, h3⟩ := h
        subst h1
        subst h2
        subst h3
        rw [if_pos hd]
      · rw [if_neg hd] at h
        simp only [Except.ok.injEq, Prod.mk.injEq] at h
        obtain ⟨h1, h2, h3⟩ := h
        subst h1
        subst h2
        subst h3
        have hd2 : (fs.addDir (kh.product_dir t)).isdir (kh.product_dir t) = true := by
          simp [FS.isdir, FS.addDir]
        rw [if_pos hd2]

/-- C7: the low-resolution recipe is deterministic and, apart from ensuring
the output directory, side-effect-free: re-running it on the state left by a
successful run returns the bit-identical mask, the same tag, and the same
state. -/
theorem lowres_recipe_idempotent (kh : KeyHandler) (fs0 : FS)
    (tg pd cf ρ : String) (fs1 : FS) (m : Mask) (τ : Tag)
    (h : recipe_building_low_resolution_mask kh fs0 (some tg) (some pd) (some cf) ρ
      = .ok (fs1, m, τ)) :
    recipe_building_low_resolution_mask kh fs1 (some tg) (some pd) (some cf) ρ
      = .ok (fs1, m, τ) := by
  simp only [recipe_building_low_resolution_mask] at h ⊢
  cases hfd : fname_dict kh fs0 tg cf pd ρ with
  | error e =>
      rw [hfd] at h
      exact absurd h (by simp [Bind.bind, Except.bind])
  | ok triple =>
      obtain ⟨fs1', fd, w⟩ := triple
      rw [hfd] at h
      simp only [Bind.bind, Except.bind] at h
      cases hlook : alookup fd.entries fd.res_lowresmask with
      | none =>
          rw [hlook] at h
          exact absurd h (by simp)
      | some entry =>
          rw [hlook] at h
          dsimp only at h
          cases hdat : fs1'.getdata entry.pbcorr_trimmed_k with
          | error e =>
              rw [hdat] at h
              exact absurd h (by simp)
          | ok d =>
              rw [hdat] at h
              simp only [Except.ok.injEq, Prod.mk.injEq] at h
              obtain ⟨h1, h2, h3⟩ := h
              subst h1
              rw [fname_dict_second_run kh fs0 tg cf pd ρ fs1' fd w hfd]
              simp only [Bind.bind, Except.bind]
              rw [hlook]
              dsimp only
              rw [hdat]
              simp [h2, h3]

end ProductHandler

namespace ProductHandler

/-- Witness for C7: a concrete second run reproduces the first run's mask,
tag and state exactly. -/
theorem lowres_recipe_idempotent_witness :
    recipe_building_low_resolution_mask khA (fsA.addDir "out")
        (some "T") (some "P") (some "X") "10p72"
      = .ok (fsA.addDir "out", simple_mask cubeA (noise_cube cubeA), "10p72") :=
  lowres_recipe_idempotent khA fsA "T" "P" "X" "10p72" (fsA.addDir "out")
    (simple_mask cubeA (noise_cube cubeA)) "10p72" (by decide)

end ProductHandler

namespace ProductHandler

/-- `cubePresent` ignores the directory set, hence also the makedirs step. -/
theorem cubePresent_ite_dir (kh : KeyHandler) (fs : FS) (d : Path)
    (t c p : String) (r : ℚ) :
    cubePresent kh (if fs.isdir d then fs else fs.addDir d) t c p r
      = cubePresent kh fs t c p r := by
  by_cases hd : fs.isdir d = true
  · rw [if_pos hd]
  · rw [if_neg hd]
    rfl

/-- Membership in `presentTags` unfolded to the catalog list. -/
theorem presentTags_mem (kh : KeyHandler) (fs : FS) (t c p : String)
    (rl : List ℚ) (hrl : kh.res_for_config c = some rl) (τ : Tag) :
    τ ∈ presentTags kh fs t c p
      ↔ ∃ r ∈ rl, cubePresent kh fs t c p r = true ∧ kh.tag_for_res r = τ := by
  unfold presentTags
  rw [hrl]
  simp only [List.mem_map, List.mem_filter]
  constructor
  · rintro ⟨r, ⟨hr, hp⟩, ht⟩
    exact ⟨r, hr, hp, ht⟩
  · rintro ⟨r, hr, hp, ht⟩
    exact ⟨r, ⟨hr, hp⟩, ht⟩

/-- Decomposition of a successful `_fname_dict` call into the loop state. -/
theorem fname_dict_ok_parts (kh : KeyHandler) (fs : FS) (t c p ρ : String)
    (rl : List ℚ) (hrl : kh.res_for_config c = some rl)
    (fs1 : FS) (fd : FnameDict) (w : List String)
    (h : fname_dict kh fs t c p ρ = .ok (fs1, fd, w)) :
    fd.entries = (rl.foldl (fdStep kh
        (if fs.isdir (kh.product_dir t) then fs else fs.addDir (kh.product_dir t))
        t c p (kh.product_dir t)) ⟨[], none, "", []⟩).entries
    ∧ w = (rl.foldl (fdStep kh
        (if fs.isdir (kh.product_dir t) then fs else fs.addDir (kh.product_dir t))
        t c p (kh.product_dir t)) ⟨[], none, "", []⟩).warnings
    ∧ fd.res_lowresmask =
        (if ρ ≠ "" ∧ (alookup ((rl.foldl (fdStep kh
            (if fs.isdir (kh.product_dir t) then fs else fs.addDir (kh.product_dir t))
            t c p (kh.product_dir t)) ⟨[], none, "", []⟩).entries) ρ).isSome = true
         then ρ
         else (rl.foldl (fdStep kh
            (if fs.isdir (kh.product_dir t) then fs else fs.addDir (kh.product_dir t))
            t c p (kh.product_dir t)) ⟨[], none, "", []⟩).lowest_res_tag) := by
  unfold fname_dict at h
  rw [hrl] at h
  dsimp only at h
  by_cases hd : fs.isdir (kh.product_dir t) = true
  · rw [if_pos hd] at h ⊢
    simp only [Except.ok.injEq, Prod.mk.injEq] at h
    obtain ⟨h1, h2, h3⟩ := h
    subst h2
    subst h3
    exact ⟨rfl, rfl, rfl⟩
  · rw [if_neg hd] at h ⊢
    simp only [Except.ok.injEq, Prod.mk.injEq] at h
    obtain ⟨h1, h2, h3⟩ := h
    subst h2
    subst h3
    exact ⟨rfl, rfl, rfl⟩

end ProductHandler

namespace ProductHandler

/-- The loop's final coarsest tag is the tag of the numerically largest
present resolution. -/
theorem fd_fold_lowtag_eq_coarsest (kh : KeyHandler) (fs : FS)
    (t c p : String) (rl : List ℚ) (hrl : kh.res_for_config c = some rl) :
    (rl.foldl (fdStep kh
        (if fs.isdir (kh.product_dir t) then fs else fs.addDir (kh.product_dir t))
        t c p (kh.product_dir t)) ⟨[], none, "", []⟩).lowest_res_tag
      = coarsestPresentTag kh fs t c p := by
  have hpair := fd_fold_lowpair kh
    (if fs.isdir (kh.product_dir t) then fs else fs.addDir (kh.product_dir t))
    t c p (kh.product_dir t) rl ⟨[], none, "", []⟩
  dsimp only at hpair
  have hfunext : (fun (a : Option ℚ × Tag) (r : ℚ) =>
      if cubePresent kh
        (if fs.isdir (kh.product_dir t) then fs else fs.addDir (kh.product_dir t))
        t c p r then maxStepT kh a r else a)
      = (fun (a : Option ℚ × Tag) (r : ℚ) =>
          if cubePresent kh fs t c p r then maxStepT kh a r else a) := by
    funext a r
    rw [cubePresent_ite_dir]
  rw [hfunext] at hpair
  rw [foldl_guard_filter (maxStepT kh) (cubePresent kh fs t c p) rl
    ((none : Option ℚ), ("" : Tag))] at hpair
  have htag := congrArg Prod.snd hpair
  dsimp only at htag
  rw [htag]
  have hfst := maxStepT_foldl_fst kh (rl.filter (cubePresent kh fs t c p))
    ((none : Option ℚ), ("" : Tag))
  have hinv := maxStepT_foldl_inv kh (rl.filter (cubePresent kh fs t c p))
    ((none : Option ℚ), ("" : Tag)) ⟨fun _ => rfl, fun r hr => (nomatch hr)⟩
  unfold coarsestPresentTag
  rw [hrl]
  dsimp only
  unfold maxFirst
  cases hm : (rl.filter (cubePresent kh fs t c p)).foldl
      (fun acc r =>
        match acc with
        | none => some r
        | some m => if r > m then some r else acc)
      none with
  | none => exact hinv.1 (by rw [hfst]; exact hm)
  | some rmax => exact hinv.2 rmax (by rw [hfst]; exact hm)

/-- C2 counterexample: with the overload omitted, present cubes tagged
`5p00`, `10p72` and `20p00`, the low-resolution recipe selects `10p72` — not
the coarsest present tag `20p00` — because the Python parameter default is
the tag `'10p72'`. -/
theorem lowres_default_not_coarsest_cex :
    resTagOf (recipe_building_low_resolution_mask_default khA fsA
        (some "T") (some "P") (some "X")) = some "10p72"
    ∧ coarsestPresentTag khA fsA "T" "X" "P" = "20p00"
    ∧ ("10p72" : String) ≠ "20p00" := by decide

/-- C2 (amended): the recipe's reference tag is the override tag when a
non-empty override is supplied and a present cube carries it, and the
coarsest present tag otherwise; invoking the recipe without the argument is
invoking it with the built-in default override `'10p72'`. -/
theorem lowres_tag_selection_amended (kh : KeyHandler) (fs : FS)
    (t p c ρ : String) (fs' : FS) (m : Mask) (τ : Tag) (rl : List ℚ)
    (hrl : kh.res_for_config c = some rl)
    (h : recipe_building_low_resolution_mask kh fs (some t) (some p) (some c) ρ
      = .ok (fs', m, τ)) :
    (τ = if ρ ≠ "" ∧ ρ ∈ presentTags kh fs t c p then ρ
         else coarsestPresentTag kh fs t c p)
    ∧ recipe_building_low_resolution_mask_default kh fs (some t) (some p) (some c)
        = recipe_building_low_resolution_mask kh fs (some t) (some p) (some c) "10p72" := by
  refine ⟨?_, rfl⟩
  simp only [recipe_building_low_resolution_mask] at h
  cases hfd : fname_dict kh fs t c p ρ with
  | error e =>
      rw [hfd] at h
      exact absurd h (by simp [Bind.bind, Except.bind])
  | ok triple =>
      obtain ⟨fs1', fd, w⟩ := triple
      rw [hfd] at h
      simp only [Bind.bind, Except.bind] at h
      have hτ : τ = fd.res_lowresmask := by
        cases hlook : alookup fd.entries fd.res_lowresmask with
        | none =>
            rw [hlook] at h
            exact absurd h (by simp)
        | some entry =>
            rw [hlook] at h
            dsimp only at h
            cases hdat : fs1'.getdata entry.pbcorr_trimmed_k with
            | error e =>
                rw [hdat] at h
                exact absurd h (by simp)
            | ok d =>
                rw [hdat] at h
                simp only [Except.ok.injEq, Prod.mk.injEq] at h
                exact h.2.2.symm
      obtain ⟨hent, hw, hlow⟩ := fname_dict_ok_parts kh fs t c p ρ rl hrl fs1' fd w hfd
      rw [hτ, hlow]
      have hcond : ((alookup ((rl.foldl (fdStep kh
          (if fs.isdir (kh.product_dir t) then fs else fs.addDir (kh.product_dir t))
          t c p (kh.product_dir t)) ⟨[], none, "", []⟩).entries) ρ).isSome = true)
          ↔ ρ ∈ presentTags kh fs t c p := by
        rw [fd_fold_entries_isSome]
        simp only [alookup_nil, Option.isSome_none, Bool.false_eq_true, false_or]
        simp only [cubePresent_ite_dir]
        rw [← presentTags_mem kh fs t c p rl hrl ρ]
      exact if_congr (and_congr_right (fun _ => hcond)) rfl
        (fd_fold_lowtag_eq_coarsest kh fs t c p rl hrl)

end ProductHandler

namespace ProductHandler

/-- Witness for the amended C2: with an empty override the concrete recipe
returns the coarsest present tag. -/
theorem lowres_tag_selection_amended_witness :
    (("20p00" : Tag) = if ("" : String) ≠ "" ∧ ("" : Tag) ∈ presentTags khA fsA "T" "X" "P"
        then "" else coarsestPresentTag khA fsA "T" "X" "P")
    ∧ recipe_building_low_resolution_mask_default khA fsA (some "T") (some "P") (some "X")
        = recipe_building_low_resolution_mask khA fsA (some "T") (some "P") (some "X") "10p72" :=
  lowres_tag_selection_amended khA fsA "T" "P" "X" "" (fsA.addDir "out")
    (simple_mask cubeA (noise_cube cubeA)) "20p00" [5, 11, 20] rfl (by decide)

end ProductHandler

namespace ProductHandler

/-- A monadic fold whose step is the identity off a predicate equals the fold
over the filtered list. -/
theorem foldlM_skip_filter (g : FS → ℚ → Except PyErr FS) (q : ℚ → Bool) :
    ∀ (l : List ℚ), (∀ r ∈ l, q r = false → ∀ f, g f r = .ok f) →
      ∀ f0 : FS, l.foldlM g f0 = (l.filter q).foldlM g f0 := by
  intro l
  induction l with
  | nil =>
      intro _ f0
      rfl
  | cons r rest ih =>
      intro hskip f0
      rw [List.filter_cons]
      by_cases hq : q r = true
      · rw [if_pos hq]
        show (g f0 r >>= fun y => rest.foldlM g y)
          = (g f0 r >>= fun y => (rest.filter q).foldlM g y)
        cases hg : g f0 r with
        | error e => rfl
        | ok f1 =>
            show rest.foldlM g f1 = (rest.filter q).foldlM g f1
            exact ih (fun r' hr' => hskip r' (List.mem_cons_of_mem r hr')) f1
      · rw [if_neg (by simp [hq])]
        show (g f0 r >>= fun y => rest.foldlM g y) = (rest.filter q).foldlM g f0
        rw [hskip r (List.mem_cons_self r rest) (eq_false_of_ne_true hq) f0]
        show rest.foldlM g f0 = (rest.filter q).foldlM g f0
        exact ih (fun r' hr' => hskip r' (List.mem_cons_of_mem r hr')) f0

/-- C5: a successful `_fname_dict` call yields a table whose keys are exactly
the tags of resolutions whose cube file exists on disk, records a warning for
every absent resolution, and the all-resolutions recipe runs its
per-resolution body over exactly the present resolutions (given that the
catalog assigns distinct tags to distinct resolutions). -/
theorem fname_table_only_present_resolutions (kh : KeyHandler) (fs : FS)
    (t p c ρ : String) (rl : List ℚ) (fs1 : FS) (fd : FnameDict)
    (w : List String)
    (hrl : kh.res_for_config c = some rl)
    (hinj : ∀ r1 ∈ rl, ∀ r2 ∈ rl, kh.tag_for_res r1 = kh.tag_for_res r2 → r1 = r2)
    (h : fname_dict kh fs t c p ρ = .ok (fs1, fd, w)) :
    (∀ τ, (alookup fd.entries τ).isSome = true ↔ τ ∈ presentTags kh fs t c p)
    ∧ (∀ r ∈ rl, cubePresent kh fs t c p r = false →
        missingCubeWarning (kh.tag_for_res r)
          (cubeFullPath kh t c p (kh.tag_for_res r)) ∈ w)
    ∧ (∀ lrm lrt,
        recipe_building_all_resolution_masks kh fs (some t) (some p) (some c)
            (some lrm) (some lrt)
          = (fname_dict kh fs t c p "") >>= (fun x =>
              (rl.filter (cubePresent kh fs t c p)).foldlM
                (fun f r =>
                  match alookup x.2.1.entries (kh.tag_for_res r) with
                  | some entry => processRes entry (kh.tag_for_res r) lrm lrt f
                  | none => .ok f) x.1)) := by
  obtain ⟨hent, hw, _⟩ := fname_dict_ok_parts kh fs t c p ρ rl hrl fs1 fd w h
  refine ⟨?_, ?_, ?_⟩
  · intro τ
    rw [hent, fd_fold_entries_isSome]
    simp only [alookup_nil, Option.isSome_none, Bool.false_eq_true, false_or]
    simp only [cubePresent_ite_dir]
    exact (presentTags_mem kh fs t c p rl hrl τ).symm
  · intro r hr habs
    rw [hw]
    have habs1 : cubePresent kh
        (if fs.isdir (kh.product_dir t) then fs else fs.addDir (kh.product_dir t))
        t c p r = false := by
      rw [cubePresent_ite_dir]
      exact habs
    exact fd_fold_warnings_mem kh
      (if fs.isdir (kh.product_dir t) then fs else fs.addDir (kh.product_dir t))
      t c p (kh.product_dir t) rl ⟨[], none, "", []⟩ r hr habs1
  · intro lrm lrt
    simp only [recipe_building_all_resolution_masks]
    cases hfd0 : fname_dict kh fs t c p "" with
    | error e => rfl
    | ok x =>
        obtain ⟨fs1'', fd'', w''⟩ := x
        simp only [Bind.bind, Except.bind]
        rw [hrl]
        dsimp only
        apply foldlM_skip_filter
          (fun f r =>
            match alookup fd''.entries (kh.tag_for_res r) with
            | some entry => processRes entry (kh.tag_for_res r) lrm lrt f
            | none => .ok f)
          (cubePresent kh fs t c p) rl
        intro r hr hq f
        obtain ⟨hent'', _, _⟩ := fname_dict_ok_parts kh fs t c p "" rl hrl fs1'' fd'' w'' hfd0
        have hiff : (alookup fd''.entries (kh.tag_for_res r)).isSome = true
            ↔ ∃ r' ∈ rl, cubePresent kh fs t c p r' = true
                ∧ kh.tag_for_res r' = kh.tag_for_res r := by
          rw [hent'', fd_fold_entries_isSome]
          simp only [alookup_nil, Option.isSome_none, Bool.false_eq_true, false_or]
          simp only [cubePresent_ite_dir]
        have hnone : alookup fd''.entries (kh.tag_for_res r) = none := by
          by_cases hl : (alookup fd''.entries (kh.tag_for_res r)).isSome = true
          · exfalso
            obtain ⟨r', hr', hp', ht'⟩ := hiff.mp hl
            rw [hinj r' hr' r hr ht'] at hp'
            rw [hp'] at hq
            exact Bool.noConfusion hq
          · cases hlook : alookup fd''.entries (kh.tag_for_res r) with
            | none => rfl
            | some e =>
                exfalso
                rw [hlook] at hl
                exact hl rfl
        rw [hnone]

end ProductHandler

namespace ProductHandler





/-- Witness for C5 on a catalog with one absent cube. -/
theorem fname_table_only_present_resolutions_witness :
    (∀ τ, (alookup (fdResultB.2.1).entries τ).isSome = true
      ↔ τ ∈ presentTags khA fsB "T" "X" "P")
    ∧ (∀ r ∈ [(5 : ℚ), 11, 20], cubePresent khA fsB "T" "X" "P" r = false →
        missingCubeWarning (khA.tag_for_res r)
          (cubeFullPath khA "T" "X" "P" (khA.tag_for_res r)) ∈ fdResultB.2.2)
    ∧ (∀ lrm lrt, recipe_building_all_resolution_masks khA fsB
          (some "T") (some "P") (some "X") (some lrm) (some lrt)
        = (fname_dict khA fsB "T" "X" "P" "") >>= (fun x =>
            (([(5 : ℚ), 11, 20]).filter (cubePresent khA fsB "T" "X" "P")).foldlM
              (fun f r =>
                match alookup x.2.1.entries (khA.tag_for_res r) with
                | some entry => processRes entry (khA.tag_for_res r) lrm lrt f
                | none => .ok f) x.1)) :=
  fname_table_only_present_resolutions khA fsB "T" "P" "X" "" [5, 11, 20]
    fdResultB.1 fdResultB.2.1 fdResultB.2.2 rfl (by decide) (by decide)

end ProductHandler

namespace ProductHandler

/-- `Except` bind succeeds exactly through a successful intermediate. -/
theorem exceptBindOkIff {α β : Type} (x : Except PyErr α)
    (f : α → Except PyErr β) (b : β) :
    (x >>= f) = .ok b ↔ ∃ a, x = .ok a ∧ f a = .ok b := by
  cases x with
  | error e => simp [Bind.bind, Except.bind]
  | ok a => simp [Bind.bind, Except.bind]

/-- The same, for the error-propagating match produced by `do` notation. -/
theorem exceptMatchOkIff {α β : Type} (x : Except PyErr α)
    (f : α → Except PyErr β) (b : β) :
    (match x with
     | Except.error err => (Except.error err : Except PyErr β)
     | Except.ok v => f v) = .ok b ↔ ∃ a, x = .ok a ∧ f a = .ok b := by
  cases x with
  | error e => simp
  | ok a => simp

/-- The signal mask has the shape of its cube. -/
theorem simple_mask_noise_length (d : CubeData) :
    (simple_mask d (noise_cube d)).length = d.length := by
  simp [simple_mask, noise_cube]

/-- Preservation form of `task_writting_products_default_ok`. -/
theorem task_writting_products_default_pres (fs fs2 : FS)
    (cube rms : MaskedCube) (f : Path)
    (h : task_writting_products fs cube rms f true true true true true true true true
      = .ok fs2)
    (q : Path) (hq : q ∉ productPaths (stripSuffix f ".fits")) :
    alookup fs2.entries q = alookup fs.entries q := by
  obtain ⟨fs3, h3, hpres⟩ := task_writting_products_default_ok fs cube rms f
  rw [h3] at h
  rw [← Except.ok.inj h]
  exact hpres q hq

/-- After the two mask writes and the two product batteries of the loop
body, the hybrid-mask path still holds the first write. -/
theorem twoWritesTwoProducts_lookup (fs0 : FS) (hm sm : Mask) (wv : Wcs)
    (hd : Header) (cs1 cs2 : List String) (o1 o2 pb ps : Path)
    (bc bn sc sn : MaskedCube) (fs' : FS)
    (hne1 : o1 ≠ o2)
    (hne2 : o1 ∉ productPaths (stripSuffix pb ".fits"))
    (hne3 : o1 ∉ productPaths (stripSuffix ps ".fits"))
    (hrun : (do
        let fsa ← task_writting_products
          (task_writing_mask
            (task_writing_mask fs0 (some hm) (some wv) (some hd) (some cs1) (some o1))
            (some sm) (some wv) (some hd) (some cs2) (some o2))
          bc bn pb true true true true true true true true
        let fsb ← task_writting_products fsa sc sn ps true true true true true true true true
        Except.ok fsb) = .ok fs') :
    alookup fs'.entries o1
      = some (.maskFile (hm.map (fun b => if b then 1 else 0))
          (builtMaskHeader wv (some hd) (some cs1))) := by
  rw [exceptBindOkIff] at hrun
  obtain ⟨fsa, hB, hrun⟩ := hrun
  rw [exceptBindOkIff] at hrun
  obtain ⟨fsb, hS, hrun⟩ := hrun
  have hfs : fsb = fs' := Except.ok.inj hrun
  subst hfs
  rw [task_writting_products_default_pres _ _ _ _ _ hS _ hne3,
    task_writting_products_default_pres _ _ _ _ _ hB _ hne2,
    task_writing_mask_some_lookup_ne _ _ _ _ _ _ _ hne1,
    task_writing_mask_some_lookup_self]

/-- C1: the per-resolution loop body of
`recipe_building_all_resolution_masks` writes, at the table entry's
hybrid-mask path, exactly the integer cast of the pointwise OR of the signal
mask built from the cube at that resolution and the low-resolution reference
mask; pointwise, a voxel of that OR is set iff it is set in the signal mask
or in the low-resolution mask, and no other voxel is set. -/
theorem hybridmask_written_is_pointwise_or (entry : ResEntry) (res_tag : Tag)
    (lowres_mask : Mask) (lowres_tag : Tag) (fs fs' : FS) (data : CubeData)
    (hdr : Header)
    (hcube : alookup fs.entries entry.pbcorr_trimmed_k = some (.cube data hdr))
    (hlen : lowres_mask.length = data.length)
    (hne1 : entry.hybridmask ≠ entry.signalmask)
    (hne2 : entry.hybridmask ∉ productPaths (stripSuffix entry.broad ".fits"))
    (hne3 : entry.hybridmask ∉ productPaths (stripSuffix entry.strict ".fits"))
    (hrun : processRes entry res_tag lowres_mask lowres_tag fs = .ok fs') :
    (∃ H, alookup fs'.entries entry.hybridmask
        = some (.maskFile
            ((logical_or (simple_mask data (noise_cube data)) lowres_mask).map
              (fun b => if b then 1 else 0)) H))
    ∧ (∀ i : ℕ,
        (logical_or (simple_mask data (noise_cube data)) lowres_mask)[i]? = some true
          ↔ ((simple_mask data (noise_cube data))[i]? = some true
              ∨ lowres_mask[i]? = some true)) := by
  have hopen : fs.openCube entry.pbcorr_trimmed_k = .ok (data, hdr) := by
    unfold FS.openCube
    rw [hcube]
  constructor
  · simp only [processRes] at hrun
    rw [hopen] at hrun
    rw [exceptBindOk] at hrun
    simp only [] at hrun
    exact ⟨builtMaskHeader (wcsOfHeader hdr) (some hdr)
      (some ["This hybridmask is made from the OR combination of the signalmask and lowresmask.",
             "This signalmask is made with the " ++ res_tag ++ "arcsec resolution cube.",
             "This lowresmask is made with the " ++ lowres_tag ++ "arcsec resolution cube."]),
      twoWritesTwoProducts_lookup fs
        (logical_or (simple_mask data (noise_cube data)) lowres_mask)
        (simple_mask data (noise_cube data)) (wcsOfHeader hdr) hdr
        ["This hybridmask is made from the OR combination of the signalmask and lowresmask.",
         "This signalmask is made with the " ++ res_tag ++ "arcsec resolution cube.",
         "This lowresmask is made with the " ++ lowres_tag ++ "arcsec resolution cube."]
        ["This signalmask is made with the " ++ res_tag ++ "arcsec resolution cube."]
        entry.hybridmask entry.signalmask entry.broad entry.strict
        ⟨data, logical_or (simple_mask data (noise_cube data)) lowres_mask⟩
        ⟨noise_cube data, logical_or (simple_mask data (noise_cube data)) lowres_mask⟩
        ⟨data, simple_mask data (noise_cube data)⟩
        ⟨noise_cube data, simple_mask data (noise_cube data)⟩
        fs' hne1 hne2 hne3 hrun⟩
  · intro i
    apply logical_or_getElem?
    rw [simple_mask_noise_length, hlen]

end ProductHandler

namespace ProductHandler







set_option maxRecDepth 10000 in
/-- Witness for C1 at a concrete cube, mask and filesystem. -/
theorem hybridmask_written_is_pointwise_or_witness :
    (∃ H, alookup fsOutA.entries entryA.hybridmask
        = some (.maskFile
            ((logical_or (simple_mask cubeA (noise_cube cubeA)) lowresA).map
              (fun b => if b then 1 else 0)) H))
    ∧ (∀ i : ℕ,
        (logical_or (simple_mask cubeA (noise_cube cubeA)) lowresA)[i]? = some true
          ↔ ((simple_mask cubeA (noise_cube cubeA))[i]? = some true
              ∨ lowresA[i]? = some true)) :=
  hybridmask_written_is_pointwise_or entryA "10p72" lowresA "20p00" fsA fsOutA
    cubeA hdrA (by decide) (by decide) (by decide) (by decide) (by decide)
    (by decide)

end ProductHandler
